import Mathlib

/-!
Shallow embedding of the image-gallery upload pipeline of `src/src/App.tsx`
(a single React component).  Pure functions are translated directly; the
component state touched by the upload pipeline (`images`, `uploading`,
`uploadProgress`) is passed explicitly, and the calls to `setUploadProgress`
made inside the per-file processing loop are collected into an explicit
trace.  The asynchronous `FileReader` encode is modelled as a total function
(the claims about the batch uploader assume every encode of a valid file
succeeds).  `localStorage` round-trips through `JSON.stringify`/`JSON.parse`
are modelled with an explicit `Json` value type; a stored blob is
`Option (Except String Json)`: `none` when the key is absent, `Except.error`
when `JSON.parse` would throw, `Except.ok` a parsed value otherwise.
-/

/-- The `ImageData` interface of `App.tsx` (lines 14-22): one uploaded image.
Field names follow the source. -/
structure ImageData where
  id : String
  name : String
  originalName : String
  src : String
  size : Nat
  type : String
  uploadDate : String
deriving DecidableEq

/-- A file descriptor as delivered by the browser: `File` exposes `name`,
`size`, `type` and (via `FileReader`) its content, which we abstract as the
base64 payload string the reader would produce. -/
structure File where
  name : String
  size : Nat
  type : String
  content : String
deriving DecidableEq

/-- Environment for the nondeterministic parts of record construction:
`Date.now() + Math.random().toString(36).substr(2, 9)` for the id and
`new Date().toISOString()` for the timestamp, both indexed by the position
of the file in the batch of valid files (each loop iteration samples the
clock and the RNG afresh). -/
structure Env where
  mkId : Nat → String
  nowIso : Nat → String

/-- `validTypes` of `validateFile` (line 77). -/
def validTypes : List String :=
  ["image/jpeg", "image/jpg", "image/png", "image/gif", "image/webp"]

/-- `maxSize = 10 * 1024 * 1024` of `validateFile` (line 78). -/
def maxSize : Nat := 10 * 1024 * 1024

/-- The two exceptions `validateFile` can throw.  Each carries the observed
datum interpolated into the thrown message: the observed `file.type` for
the invalid-type error, the observed `file.size` for the too-large error
(the message renders it as `(file.size / 1024 / 1024).toFixed(2)` MB; the
floating-point presentation is abstracted to the raw byte count it is
computed from). -/
inductive ValidationError where
  | invalidType (observed : String)
  | tooLarge (observedSize : Nat)
deriving DecidableEq

/-- `validateFile` (lines 76-89): throws on a type outside `validTypes`,
then on `size > maxSize`, otherwise returns `true`.  Throwing is modelled
with `Except`. -/
def validateFile (file : File) : Except ValidationError Bool :=
  if ¬ validTypes.contains file.type then
    Except.error (ValidationError.invalidType file.type)
  else if file.size > maxSize then
    Except.error (ValidationError.tooLarge file.size)
  else
    Except.ok true

/-- Whether `validateFile file` returns normally; the upload handler's
per-file try/catch (lines 119-127) keeps exactly these files. -/
def validationOk (file : File) : Bool :=
  match validateFile file with
  | Except.ok _ => true
  | Except.error _ => false

/-- `file.name.replace(/\.[^/.]+$/, "")` (line 143): drop a final extension,
i.e. a trailing `.` followed by one or more characters none of which is `/`
or `.`; leave the name unchanged when no such suffix exists. -/
def stripExtChars (cs : List Char) : List Char :=
  let r := cs.reverse
  let ext := r.takeWhile (fun c => c ≠ '.' ∧ c ≠ '/')
  match r.drop ext.length with
  | '.' :: rest => if ext.isEmpty then cs else rest.reverse
  | _ => cs

/-- `stripExtChars` lifted to `String`. -/
def stripExt (s : String) : String :=
  ⟨stripExtChars s.data⟩

/-- `fileToBase64` (lines 92-105): `FileReader.readAsDataURL` produces
`data:<mime>;base64,<payload>`; the payload is the file's abstracted
content.  The claims treat every encode of a valid file as succeeding, so
the model is total. -/
def fileToBase64 (file : File) : String :=
  "data:" ++ file.type ++ ";base64," ++ file.content

/-- The `ImageData` literal built for the `i`-th valid file (lines 141-149). -/
def mkRecord (env : Env) (i : Nat) (file : File) : ImageData :=
  { id := env.mkId i
    name := stripExt file.name
    originalName := file.name
    src := fileToBase64 file
    size := file.size
    type := file.type
    uploadDate := env.nowIso i }

/-- The component state the upload pipeline reads and writes. -/
structure UploadState where
  images : List ImageData
  uploading : Bool
  uploadProgress : ℚ
deriving DecidableEq

/-- How a call to `handleFileUpload` ended: `skipped` is the early return on
a null/empty file list (line 109); `noValidFiles` is the thrown-and-caught
`No valid image files to upload` (line 130); `ok` is normal completion. -/
inductive UploadOutcome where
  | skipped
  | noValidFiles
  | ok
deriving DecidableEq

/-- Result of a `handleFileUpload` call: the final component state, the
sequence of values passed to `setUploadProgress` by the per-file loop
(line 155), and the outcome.  The function is total: every exception the
source can raise is caught inside `handleFileUpload` itself. -/
structure UploadResult where
  state : UploadState
  progressTrace : List ℚ
  outcome : UploadOutcome
deriving DecidableEq

/-- `handleFileUpload` (lines 108-181).  Early return on null/empty input;
otherwise filter the batch through `validateFile` (each failure caught and
logged), throw-and-catch when no file survives, else encode each valid file
in input order, building one record per file and reporting progress
`((i + 1) / validFiles.length) * 100` after the `i`-th file; finally append
the new records to `images` in one update and reset `uploading` and
`uploadProgress` (the `finally` block, lines 173-180). -/
def handleFileUpload (env : Env) (st : UploadState) (files : Option (List File)) :
    UploadResult :=
  match files with
  | none => ⟨st, [], UploadOutcome.skipped⟩
  | some fs =>
    if fs.length = 0 then ⟨st, [], UploadOutcome.skipped⟩
    else
      let validFiles := fs.filter validationOk
      if validFiles.length = 0 then
        ⟨⟨st.images, false, 0⟩, [], UploadOutcome.noValidFiles⟩
      else
        ⟨⟨st.images ++ validFiles.enum.map (fun p => mkRecord env p.1 p.2), false, 0⟩,
         (List.range validFiles.length).map
           (fun i => (((i + 1 : ℕ) : ℚ) / ((validFiles.length : ℕ) : ℚ)) * 100),
         UploadOutcome.ok⟩

/-- `deleteImage` (lines 212-214): `images.filter(img => img.id !== imageId)`. -/
def deleteImage (images : List ImageData) (imageId : String) : List ImageData :=
  images.filter (fun img => img.id ≠ imageId)

/-- JavaScript `String.prototype.includes` on character lists: does `needle`
occur contiguously inside the list?  (Empty needle always matches.) -/
def containsSub : List Char → List Char → Bool
  | [], needle => needle.isEmpty
  | a :: t, needle => needle.isPrefixOf (a :: t) || containsSub t needle

/-- `s.includes(sub)` for strings. -/
def jsIncludes (s sub : String) : Bool :=
  containsSub s.data sub.data

/-- JavaScript `String.prototype.toLowerCase`: lower-case every character. -/
def toLowerStr (s : String) : String :=
  ⟨s.data.map Char.toLower⟩

/-- `filteredImages` (lines 217-219):
`images.filter(image => image.name.toLowerCase().includes(searchTerm.toLowerCase()))`. -/
def filteredImages (images : List ImageData) (searchTerm : String) : List ImageData :=
  images.filter (fun image => jsIncludes (toLowerStr image.name) (toLowerStr searchTerm))

/-- JSON values, as produced by `JSON.stringify` and `JSON.parse` for the
data this application stores (strings, numbers, arrays, objects). -/
inductive Json where
  | str (s : String)
  | num (n : Nat)
  | arr (elems : List Json)
  | obj (fields : List (String × Json))

/-- `JSON.stringify` of one `ImageData` object: its seven fields in
declaration order. -/
def encodeImage (r : ImageData) : Json :=
  Json.obj [("id", Json.str r.id), ("name", Json.str r.name),
    ("originalName", Json.str r.originalName), ("src", Json.str r.src),
    ("size", Json.num r.size), ("type", Json.str r.type),
    ("uploadDate", Json.str r.uploadDate)]

/-- Reading one `ImageData` back out of a parsed JSON value.  The source
performs no runtime check (`JSON.parse(savedImages)` is cast to
`ImageData[]`); in the typed embedding the cast becomes this structural
decode, which succeeds on everything `encodeImage` produces. -/
def decodeImage : Json → Option ImageData
  | Json.obj [("id", Json.str i), ("name", Json.str n),
      ("originalName", Json.str o), ("src", Json.str s),
      ("size", Json.num z), ("type", Json.str t),
      ("uploadDate", Json.str u)] => some ⟨i, n, o, s, z, t, u⟩
  | _ => none

/-- `JSON.stringify(images)`: the array of encoded records. -/
def encodeGallery (g : List ImageData) : Json :=
  Json.arr (g.map encodeImage)

/-- Decode a list of JSON values element-wise, failing if any element fails. -/
def decodeImages : List Json → Option (List ImageData)
  | [] => some []
  | j :: js =>
    match decodeImage j, decodeImages js with
    | some r, some rs => some (r :: rs)
    | _, _ => none

/-- Read a gallery out of a parsed JSON value. -/
def decodeGallery : Json → Option (List ImageData)
  | Json.arr es => decodeImages es
  | _ => none

/-- The save effect (lines 60-66): `JSON.stringify(images)` written under
the `gallery-images` key.  Stringifying these records always succeeds and
always yields a blob that `JSON.parse` accepts, hence `Except.ok`. -/
def saveImages (g : List ImageData) : Option (Except String Json) :=
  some (Except.ok (encodeGallery g))

/-- The load effect (lines 39-49) over the stored blob, starting from
current images `images0`: an absent key leaves the state untouched; a blob
on which `JSON.parse` throws is caught, logged, and replaced by the empty
gallery; a parsed blob is installed (the source's unchecked cast rendered
as `decodeGallery`, with the empty gallery on the unreachable shape
mismatch).  The returned `Bool` records whether the catch branch logged a
parse failure. -/
def loadImages (stored : Option (Except String Json)) (images0 : List ImageData) :
    List ImageData × Bool :=
  match stored with
  | none => (images0, false)
  | some (Except.error _) => ([], true)
  | some (Except.ok j) => ((decodeGallery j).getD [], false)

/-- Does every record in the gallery carry an accepted MIME type? -/
def galleryTypesOk (g : List ImageData) : Bool :=
  g.all (fun r => validTypes.contains r.type)

/-- One step of the application: an upload (followed by the save effect,
which fires on every `images` change), a deletion (likewise), or a load
from the stored blob.  The state is the in-memory gallery paired with the
stored blob. -/
inductive SysStep :
    List ImageData × Option (Except String Json) →
    List ImageData × Option (Except String Json) → Prop where
  | upload (env : Env) (files : Option (List File)) (g : List ImageData)
      (st : Option (Except String Json)) :
      SysStep (g, st)
        ((handleFileUpload env ⟨g, false, 0⟩ files).state.images,
         saveImages (handleFileUpload env ⟨g, false, 0⟩ files).state.images)
  | del (i : String) (g : List ImageData) (st : Option (Except String Json)) :
      SysStep (g, st) (deleteImage g i, saveImages (deleteImage g i))
  | load (g : List ImageData) (st : Option (Except String Json)) :
      SysStep (g, st) ((loadImages st g).1, saveImages (loadImages st g).1)

/-- States reachable from a fresh session (empty gallery, no stored blob)
by the operations upload, delete, and load. -/
def Reachable (s : List ImageData × Option (Except String Json)) : Prop :=
  Relation.ReflTransGen SysStep ([], none) s

/-- Strengthened invariant: the in-memory gallery carries accepted MIME
types only, and the stored blob, when present, is the serialization of
some gallery that does too. -/
def SysInv (s : List ImageData × Option (Except String Json)) : Prop :=
  galleryTypesOk s.1 = true ∧
    (s.2 = none ∨ ∃ g2, galleryTypesOk g2 = true ∧ s.2 = saveImages g2)

/-- A valid sample file (accepted type, small size). -/
def samplePng : File :=
  ⟨"a.png", 100, "image/png", "qq"⟩

/-- An invalid sample file (type outside the accepted set). -/
def sampleExe : File :=
  ⟨"b.exe", 100, "application/exe", "zz"⟩

/-- A file of exactly `maxSize` bytes: the inclusive boundary. -/
def pngAtLimit : File :=
  ⟨"big.png", 10485760, "image/png", "p"⟩

/-- A file one byte over `maxSize`. -/
def pngOverLimit : File :=
  ⟨"big.png", 10485761, "image/png", "p"⟩

/-- A file whose MIME type differs from an accepted one only in case. -/
def upperTypeFile : File :=
  ⟨"a.png", 5, "IMAGE/PNG", "p"⟩

/-- A sample record whose display name exercises case-insensitive search. -/
def catRecord : ImageData :=
  ⟨"cat1", "CAT_photo", "CAT_photo.png", "s", 3, "image/png", "d"⟩

/-- A concrete environment for witnesses. -/
def sampleEnv : Env :=
  ⟨fun i => "id" ++ toString i, fun _ => "2026-01-01T00:00:00.000Z"⟩

/-- A file the upload handler keeps has a MIME type in the accepted set. -/
theorem validationOk_contains (f : File) (h : validationOk f = true) :
    validTypes.contains f.type = true := by
  by_cases ht : f.type ∈ validTypes
  · simpa using ht
  · exfalso
    simp [validationOk, validateFile, ht] at h

/-- Case analysis of `validateFile`: its three possible results, each
characterised by the file's type and size. -/
theorem validateFile_cases (f : File) :
    (validateFile f = Except.ok true ↔
        (f.type ∈ validTypes ∧ f.size ≤ maxSize))
    ∧ (validateFile f = Except.error (ValidationError.invalidType f.type) ↔
        f.type ∉ validTypes)
    ∧ (validateFile f = Except.error (ValidationError.tooLarge f.size) ↔
        (f.type ∈ validTypes ∧ maxSize < f.size)) := by
  by_cases ht : f.type ∈ validTypes
  · by_cases hs : f.size ≤ maxSize
    · have hv : validateFile f = Except.ok true := by
        simp [validateFile, ht, Nat.not_lt.mpr hs]
      rw [hv]
      simp [ht, hs, Nat.not_lt.mpr hs]
    · have hlt : maxSize < f.size := Nat.lt_of_not_le hs
      have hv : validateFile f = Except.error (ValidationError.tooLarge f.size) := by
        simp [validateFile, ht, hlt]
      rw [hv]
      simp [ht, hs, hlt]
  · have hv : validateFile f = Except.error (ValidationError.invalidType f.type) := by
      simp [validateFile, ht]
    rw [hv]
    simp [ht]

/-- The gallery after `handleFileUpload` on a non-null batch: the old
records followed by one record per file that passed validation, built in
the order the valid files appeared in the input. -/
theorem handleFileUpload_images (env : Env) (st : UploadState) (fs : List File) :
    (handleFileUpload env st (some fs)).state.images
      = st.images ++ (fs.filter validationOk).enum.map (fun p => mkRecord env p.1 p.2) := by
  by_cases h0 : fs.length = 0
  · have hfs : fs = [] := List.length_eq_zero.mp h0
    subst hfs
    simp [handleFileUpload]
  · by_cases h1 : (fs.filter validationOk).length = 0
    · have hf : fs.filter validationOk = [] := List.length_eq_zero.mp h1
      simp [handleFileUpload, h0, hf]
    · simp [handleFileUpload, h0, h1]

/-- The progress values reported by the per-file loop, when at least one
file passed validation. -/
theorem handleFileUpload_trace (env : Env) (st : UploadState) (fs : List File)
    (h1 : (fs.filter validationOk).length ≠ 0) :
    (handleFileUpload env st (some fs)).progressTrace
      = (List.range (fs.filter validationOk).length).map
          (fun i => (((i + 1 : ℕ) : ℚ) / (((fs.filter validationOk).length : ℕ) : ℚ)) * 100) := by
  have h0 : ¬ fs.length = 0 := by
    intro h
    have hfs : fs = [] := List.length_eq_zero.mp h
    subst hfs
    simp at h1
  simp [handleFileUpload, h0, h1]

/-- Decoding inverts encoding on one record. -/
theorem decodeImage_encodeImage (r : ImageData) :
    decodeImage (encodeImage r) = some r := rfl

/-- Decoding inverts encoding on a list of records. -/
theorem decodeImages_map_encode (g : List ImageData) :
    decodeImages (g.map encodeImage) = some g := by
  induction g with
  | nil => rfl
  | cons r rs ih => simp [decodeImages, decodeImage_encodeImage, ih]

/-- An empty needle is always contained. -/
theorem containsSub_empty_needle (hay : List Char) : containsSub hay [] = true := by
  cases hay with
  | nil => rfl
  | cons a t => simp [containsSub, List.isPrefixOf]

/-- `containsSub` decides contiguous containment. -/
theorem containsSub_infix_iff (hay needle : List Char) :
    containsSub hay needle = true ↔ List.IsInfix needle hay := by
  induction hay with
  | nil =>
    simp [containsSub, List.isEmpty_iff, List.infix_nil]
  | cons a t ih =>
    rw [containsSub, Bool.or_eq_true, List.isPrefixOf_iff_prefix, ih]
    exact ( List.infix_cons_iff).symm

/-- `containsSub` decides the existence of a contiguous decomposition. -/
theorem containsSub_iff_ex (hay needle : List Char) :
    containsSub hay needle = true ↔ ∃ pre post, hay = pre ++ needle ++ post := by
  rw [containsSub_infix_iff]
  constructor
  · rintro ⟨pre, post, h⟩
    exact ⟨pre, post, h.symm⟩
  · rintro ⟨pre, post, h⟩
    exact ⟨pre, post, h.symm⟩

/-- `galleryTypesOk` restricted along a filter. -/
theorem galleryTypesOk_filter (g : List ImageData) (p : ImageData → Bool)
    (h : galleryTypesOk g = true) : galleryTypesOk (g.filter p) = true := by
  rw [galleryTypesOk, List.all_eq_true] at h ⊢
  intro r hr
  exact h r (List.mem_filter.mp hr).1

/-- The records appended by an upload all carry accepted MIME types. -/
theorem upload_images_typesOk (env : Env) (g : List ImageData)
    (files : Option (List File)) (h : galleryTypesOk g = true) :
    galleryTypesOk (handleFileUpload env ⟨g, false, 0⟩ files).state.images = true := by
  cases files with
  | none => simpa [handleFileUpload] using h
  | some fs =>
    rw [handleFileUpload_images]
    rw [galleryTypesOk, List.all_eq_true]
    intro r hr
    rw [List.mem_append] at hr
    cases hr with
    | inl hl =>
      rw [galleryTypesOk, List.all_eq_true] at h
      exact h r hl
    | inr hrt =>
      rw [List.mem_map] at hrt
      obtain ⟨⟨i, f⟩, hp, rfl⟩ := hrt
      have hm := List.mem_enum hp
      have hmem : f ∈ fs.filter validationOk := by
        rw [hm.2]
        exact List.getElem_mem hm.1
      have hok : validationOk f = true := (List.mem_filter.mp hmem).2
      simpa [mkRecord] using validationOk_contains f hok

/-- The strengthened invariant holds initially. -/
theorem sysInv_init : SysInv ([], none) :=
  ⟨rfl, Or.inl rfl⟩

/-- The strengthened invariant is preserved by every step. -/
theorem sysInv_step (s s2 : List ImageData × Option (Except String Json))
    (hs : SysInv s) (hstep : SysStep s s2) : SysInv s2 := by
  cases hstep with
  | upload env files g st =>
    have h1 : galleryTypesOk (handleFileUpload env ⟨g, false, 0⟩ files).state.images = true :=
      upload_images_typesOk env g files hs.1
    exact ⟨h1, Or.inr ⟨_, h1, rfl⟩⟩
  | del i g st =>
    have h1 : galleryTypesOk (deleteImage g i) = true :=
      galleryTypesOk_filter g _ hs.1
    exact ⟨h1, Or.inr ⟨_, h1, rfl⟩⟩
  | load g st =>
    have h1 : galleryTypesOk (loadImages st g).1 = true := by
      rcases hs.2 with hnone | ⟨g2, hg2, hst⟩
      · subst hnone
        simpa [loadImages] using hs.1
      · subst hst
        simpa [loadImages, saveImages, decodeGallery, encodeGallery,
          decodeImages_map_encode] using hg2
    exact ⟨h1, Or.inr ⟨_, h1, rfl⟩⟩

/-- Every reachable state satisfies the strengthened invariant. -/
theorem reachable_sysInv (s : List ImageData × Option (Except String Json))
    (h : Reachable s) : SysInv s := by
  unfold Reachable at h
  induction h with
  | refl => exact sysInv_init
  | tail hab hbc ih => exact sysInv_step _ _ ih hbc

/-- C1: for every batch, `handleFileUpload` appends to the gallery exactly
one `ImageData` record per file that passes validation, in the relative
order in which the valid files appeared in the input (every encode
succeeds in the model), appending nothing for rejected files; each
appended record reproduces its file's name, size and MIME type. -/
theorem handleFileUpload_appends_valid_in_order (env : Env) (st : UploadState)
    (fs : List File) :
    (handleFileUpload env st (some fs)).state.images
        = st.images ++ (fs.filter validationOk).enum.map (fun p => mkRecord env p.1 p.2)
    ∧ (handleFileUpload env st (some fs)).state.images.length
        = st.images.length + (fs.filter validationOk).length
    ∧ ∀ p ∈ (fs.filter validationOk).enum,
        (mkRecord env p.1 p.2).originalName = p.2.name
        ∧ (mkRecord env p.1 p.2).name = stripExt p.2.name
        ∧ (mkRecord env p.1 p.2).size = p.2.size
        ∧ (mkRecord env p.1 p.2).type = p.2.type := by
  refine ⟨handleFileUpload_images env st fs, ?_, ?_⟩
  · rw [handleFileUpload_images env st fs]
    simp [List.enum_length]
  · intro p hp
    exact ⟨rfl, rfl, rfl, rfl⟩

/-- C2: `validateFile` accepts a file exactly when its MIME type is one of
the five accepted strings (case-sensitively: `IMAGE/PNG` is rejected) and
its size is at most `maxSize = 10485760` bytes inclusive; a type outside
the set yields the invalid-type error carrying the observed type, and an
accepted type with a size strictly over the limit yields the too-large
error carrying the observed size (from which the thrown message formats
the two-decimal MB figure). -/
theorem validateFile_spec :
    (∀ f : File, validateFile f = Except.ok true ↔
        (f.type ∈ validTypes ∧ f.size ≤ maxSize))
    ∧ (∀ f : File, validateFile f = Except.error (ValidationError.invalidType f.type) ↔
        f.type ∉ validTypes)
    ∧ (∀ f : File, validateFile f = Except.error (ValidationError.tooLarge f.size) ↔
        (f.type ∈ validTypes ∧ maxSize < f.size))
    ∧ maxSize = 10485760
    ∧ validateFile pngAtLimit = Except.ok true
    ∧ validateFile pngOverLimit = Except.error (ValidationError.tooLarge 10485761)
    ∧ validateFile upperTypeFile = Except.error (ValidationError.invalidType "IMAGE/PNG") :=
  ⟨fun f => (validateFile_cases f).1, fun f => (validateFile_cases f).2.1,
   fun f => (validateFile_cases f).2.2, rfl, rfl, rfl, rfl⟩

/-- C3: when the batch is non-empty and every file fails validation, the
upload fails as a whole with the no-valid-files outcome, surfaced as a
no-op rather than an exception (the model function returns normally): the
gallery is unchanged and no record or progress value is produced. -/
theorem upload_all_invalid_noop (env : Env) (st : UploadState) (fs : List File)
    (hne : fs ≠ []) (hall : ∀ f ∈ fs, validationOk f = false) :
    (handleFileUpload env st (some fs)).outcome = UploadOutcome.noValidFiles
    ∧ (handleFileUpload env st (some fs)).state.images = st.images
    ∧ (handleFileUpload env st (some fs)).progressTrace = [] := by
  have h0 : ¬ fs.length = 0 := by
    simpa [List.length_eq_zero] using hne
  have hf : fs.filter validationOk = [] := by
    rw [List.filter_eq_nil_iff]
    intro f hfm
    simp [hall f hfm]
  refine ⟨?_, ?_, ?_⟩ <;> simp [handleFileUpload, h0, hf]

/-- C3 witness: a singleton batch holding one `application/exe` file. -/
theorem upload_all_invalid_noop_witness :
    (handleFileUpload sampleEnv ⟨[], false, 0⟩ (some [sampleExe])).outcome
        = UploadOutcome.noValidFiles
    ∧ (handleFileUpload sampleEnv ⟨[], false, 0⟩ (some [sampleExe])).state.images = [] :=
  ⟨(upload_all_invalid_noop sampleEnv ⟨[], false, 0⟩ [sampleExe] (by decide)
      (by decide)).1,
   (upload_all_invalid_noop sampleEnv ⟨[], false, 0⟩ [sampleExe] (by decide)
      (by decide)).2.1⟩

/-- C5: saving any gallery and loading it back yields the same gallery,
record for record in order (hence field for field), regardless of the
in-memory images at load time, and without logging a parse failure. -/
theorem save_load_roundtrip (g g0 : List ImageData) :
    loadImages (saveImages g) g0 = (g, false) := by
  simp [saveImages, loadImages, decodeGallery, encodeGallery, decodeImages_map_encode]

/-- C6: a stored blob on which `JSON.parse` throws makes `load` install the
empty gallery and log the condition; the model function returns normally,
so the parse error never propagates to the caller. -/
theorem load_parse_failure_empty (e : String) (g0 : List ImageData) :
    loadImages (some (Except.error e)) g0 = ([], true) := rfl

/-- C7: `deleteImage` keeps the gallery a subsequence of itself (order
unchanged), every surviving record has a different id, every record with a
different id survives, and when no record carries the id the gallery is
returned unchanged. -/
theorem deleteImage_removes_exactly (g : List ImageData) (i : String) :
    (deleteImage g i).Sublist g
    ∧ (∀ r ∈ deleteImage g i, r.id ≠ i ∧ r ∈ g)
    ∧ (∀ r ∈ g, r.id ≠ i → r ∈ deleteImage g i)
    ∧ ((∀ r ∈ g, r.id ≠ i) → deleteImage g i = g) := by
  simp only [deleteImage]
  refine ⟨List.filter_sublist g, ?_, ?_, ?_⟩
  · intro r hr
    have h := List.mem_filter.mp hr
    exact ⟨by simpa using h.2, h.1⟩
  · intro r hrg hri
    exact List.mem_filter.mpr ⟨hrg, by simpa using hri⟩
  · intro hall
    exact List.filter_eq_self.mpr (fun a ha => by simpa using hall a ha)

/-- C10: a null or empty file list makes `handleFileUpload` return
immediately with the component state — gallery, progress value and
uploading flag — exactly as it was, no progress reported. -/
theorem upload_empty_input_noop (env : Env) (st : UploadState) :
    handleFileUpload env st none = ⟨st, [], UploadOutcome.skipped⟩
    ∧ handleFileUpload env st (some []) = ⟨st, [], UploadOutcome.skipped⟩ :=
  ⟨rfl, rfl⟩

/-- C4: during an upload whose batch contains `K > 0` valid files, the
per-file loop reports exactly the progress values
`(1/K)*100, (2/K)*100, ..., (K/K)*100`, in strictly increasing order,
ending at `100`, each lying in `[0, 100]`. -/
theorem upload_progress_values (env : Env) (st : UploadState) (fs : List File)
    (hK : 0 < (fs.filter validationOk).length) :
    (handleFileUpload env st (some fs)).progressTrace
        = (List.range (fs.filter validationOk).length).map
            (fun i => (((i + 1 : ℕ) : ℚ) / (((fs.filter validationOk).length : ℕ) : ℚ)) * 100)
    ∧ (handleFileUpload env st (some fs)).progressTrace.Pairwise (fun a b => a < b)
    ∧ (handleFileUpload env st (some fs)).progressTrace.getLast? = some 100
    ∧ ∀ x ∈ (handleFileUpload env st (some fs)).progressTrace, 0 ≤ x ∧ x ≤ 100 := by
  have hne : (fs.filter validationOk).length ≠ 0 := Nat.pos_iff_ne_zero.mp hK
  have htr := handleFileUpload_trace env st fs hne
  have hKQ : (0 : ℚ) < (((fs.filter validationOk).length : ℕ) : ℚ) := by
    exact_mod_cast hK
  refine ⟨htr, ?_, ?_, ?_⟩
  · rw [htr]
    refine List.Pairwise.map _ ?_ (List.pairwise_lt_range _)
    intro a b hab
    have e : ∀ y : ℚ, y / (((fs.filter validationOk).length : ℕ) : ℚ) * 100
        = y * (100 / (((fs.filter validationOk).length : ℕ) : ℚ)) := by
      intro y
      ring
    rw [e (((a + 1 : ℕ) : ℚ)), e (((b + 1 : ℕ) : ℚ))]
    have hc : (0 : ℚ) < 100 / (((fs.filter validationOk).length : ℕ) : ℚ) :=
      div_pos (by norm_num) hKQ
    have hab2 : (((a + 1 : ℕ)) : ℚ) < (((b + 1 : ℕ)) : ℚ) := by
      exact_mod_cast Nat.succ_lt_succ hab
    exact mul_lt_mul_of_pos_right hab2 hc
  · rw [htr]
    obtain ⟨j, hj⟩ := Nat.exists_eq_succ_of_ne_zero hne
    rw [hj, List.range_succ, List.map_append]
    simp only [List.map_cons, List.map_nil]
    rw [List.getLast?_concat]
    have hne2 : ((j : ℚ) + 1) ≠ 0 := by positivity
    simp only [Option.some.injEq]
    push_cast
    rw [div_self hne2]
    norm_num
  · rw [htr]
    intro x hx
    rw [List.mem_map] at hx
    obtain ⟨i, hi, rfl⟩ := hx
    rw [List.mem_range] at hi
    constructor
    · positivity
    · have h1 : (((i + 1 : ℕ)) : ℚ) ≤ (((fs.filter validationOk).length : ℕ) : ℚ) := by
        exact_mod_cast Nat.succ_le_of_lt hi
      have h2 : (((i + 1 : ℕ)) : ℚ) / (((fs.filter validationOk).length : ℕ) : ℚ) ≤ 1 :=
        (div_le_one hKQ).mpr h1
      calc (((i + 1 : ℕ)) : ℚ) / (((fs.filter validationOk).length : ℕ) : ℚ) * 100
          ≤ 1 * 100 := mul_le_mul_of_nonneg_right h2 (by norm_num)
        _ = 100 := by norm_num

/-- C4 witness: a batch holding one valid file reports a trace ending at
100. -/
theorem upload_progress_values_witness :
    0 < ([samplePng].filter validationOk).length
    ∧ (handleFileUpload sampleEnv ⟨[], false, 0⟩ (some [samplePng])).progressTrace.getLast?
        = some 100 :=
  ⟨by decide,
   (upload_progress_values sampleEnv ⟨[], false, 0⟩ [samplePng] (by decide)).2.2.1⟩

/-- C8: the search filter returns the ordered sub-sequence of records whose
lower-cased display name contains the lower-cased query contiguously; for
a record of the gallery, membership in the result is exactly substring
containment; the empty query returns the gallery unchanged; a query
matching no display name returns the empty list; and `cat` matches
`CAT_photo`. -/
theorem filteredImages_spec :
    (∀ (g : List ImageData) (q : String), (filteredImages g q).Sublist g)
    ∧ (∀ (g : List ImageData) (q : String) (r : ImageData),
        r ∈ filteredImages g q ↔
          (r ∈ g ∧ jsIncludes (toLowerStr r.name) (toLowerStr q) = true))
    ∧ (∀ (g : List ImageData) (q : String) (r : ImageData), r ∈ g →
        (r ∈ filteredImages g q ↔
          ∃ pre post, (toLowerStr r.name).data = pre ++ (toLowerStr q).data ++ post))
    ∧ (∀ g : List ImageData, filteredImages g "" = g)
    ∧ (∀ (g : List ImageData) (q : String),
        (∀ r ∈ g, jsIncludes (toLowerStr r.name) (toLowerStr q) = false) →
          filteredImages g q = [])
    ∧ filteredImages [catRecord] "cat" = [catRecord] := by
  refine ⟨?_, ?_, ?_, ?_, ?_, ?_⟩
  · intro g q
    exact List.filter_sublist g
  · intro g q r
    exact List.mem_filter
  · intro g q r hrg
    constructor
    · intro h
      exact (containsSub_iff_ex _ _).mp (List.mem_filter.mp h).2
    · intro h
      exact List.mem_filter.mpr ⟨hrg, (containsSub_iff_ex _ _).mpr h⟩
  · intro g
    apply List.filter_eq_self.mpr
    intro a ha
    exact containsSub_empty_needle (toLowerStr a.name).data
  · intro g q hall
    apply List.filter_eq_nil_iff.mpr
    intro a ha
    simp [hall a ha]
  · decide

/-- C9: in every state reachable from a fresh session by upload, delete and
load operations, every record of the in-memory gallery carries a MIME type
in the accepted set. -/
theorem gallery_mimeType_invariant (s : List ImageData × Option (Except String Json))
    (h : Reachable s) : galleryTypesOk s.1 = true :=
  (reachable_sysInv s h).1

/-- C9 witness: the state reached by uploading one valid file into a fresh
session. -/
theorem gallery_mimeType_invariant_witness :
    galleryTypesOk ((handleFileUpload sampleEnv ⟨[], false, 0⟩ (some [samplePng])).state.images)
      = true :=
  gallery_mimeType_invariant
    ((handleFileUpload sampleEnv ⟨[], false, 0⟩ (some [samplePng])).state.images,
     saveImages (handleFileUpload sampleEnv ⟨[], false, 0⟩ (some [samplePng])).state.images)
    (Relation.ReflTransGen.single (SysStep.upload sampleEnv (some [samplePng]) [] none))
